import Mathlib

/-
Verification of the green-OA scrape queue (queue_green_oa_scrape.py):
a shallow embedding of the domain rate limiter, the queue claim/complete
statements and the worker control loop, with theorems settling the spec
claims about them. Timestamps are seconds since an arbitrary epoch (Nat);
SQL NULL is Option.none.
-/

/-- A row of the domain_scrape_activity table: one row per remote domain,
with the scrape start and finish timestamps. -/
structure DomainActivity where
  domain : String
  started : Option Nat
  finished : Option Nat
deriving Repr, DecidableEq

/-- The domain_scrape_activity table as a list of rows; domain is the
primary key, so lookups take the first matching row. -/
abbrev ActivityTable := List DomainActivity

/-- Primary-key lookup in domain_scrape_activity. -/
def findDomain (d : String) (t : ActivityTable) : Option DomainActivity :=
  t.find? (fun r => r.domain == d)

/-- The statement insert into domain_scrape_activity (domain) values (:domain)
on conflict do nothing: a fresh row has null started and finished. -/
def insertDomainIfAbsent (d : String) (t : ActivityTable) : ActivityTable :=
  match findDomain d t with
  | some _ => t
  | none => t ++ [⟨d, none, none⟩]

/-- Staleness threshold of the rate limiter: started < now() - interval of 1
hour, in seconds. -/
def staleSeconds : Nat := 3600

/-- The where clause of the conditional update in begin_rate_limit_domain:
(started is null or started < now() - 1 hour) and (finished is null or
finished < now() - interval_seconds seconds). -/
def domainEligible (now intervalSeconds : Nat) (r : DomainActivity) : Bool :=
  (match r.started with
   | none => true
   | some s => decide (s + staleSeconds < now)) &&
  (match r.finished with
   | none => true
   | some f => decide (f + intervalSeconds < now))

/-- One execution of the SQL script in begin_rate_limit_domain at time now:
insert-if-absent, then the conditional update that grants the lock by setting
started = now(), finished = null on the eligible row and returning its domain.
Result: the new table and whether a row was returned, i.e. the lock granted. -/
def beginRateLimitAttempt (d : String) (intervalSeconds now : Nat) (t : ActivityTable) :
    ActivityTable × Bool :=
  let t1 := insertDomainIfAbsent d t
  match findDomain d t1 with
  | none => (t1, false)
  | some r =>
    if domainEligible now intervalSeconds r then
      (t1.map (fun x =>
        if x.domain == d then { x with started := some now, finished := none } else x),
       true)
    else (t1, false)

/-- The function end_rate_limit_domain: unconditionally set started = null,
finished = now() on the row of the domain. -/
def end_rate_limit_domain (d : String) (now : Nat) (t : ActivityTable) : ActivityTable :=
  t.map (fun x =>
    if x.domain == d then { x with started := none, finished := some now } else x)

/-- The function begin_rate_limit_domain: repeat the conditional update until
it grants the lock, sleeping interval_seconds/2 (integer division) between
attempts. fuel bounds the number of attempts to keep the definition total;
the source loop is unbounded. Returns the grant time and the table after the
granting attempt, or none when fuel runs out before a grant. -/
def begin_rate_limit_domain (fuel : Nat) (d : String) (intervalSeconds now : Nat)
    (t : ActivityTable) : Option (Nat × ActivityTable) :=
  match fuel with
  | 0 => none
  | Nat.succ fuel1 =>
    match beginRateLimitAttempt d intervalSeconds now t with
    | (t1, true) => some (now, t1)
    | (t1, false) =>
      begin_rate_limit_domain fuel1 d intervalSeconds (now + intervalSeconds / 2) t1

/-- The eligibility predicate in the words of the spec: record absent (first
insert-if-absent), or started is null, or started older than the staleness
threshold, and: finished is null or finished older than minIntervalSeconds. -/
def specAcquireEligible (d : String) (minIntervalSeconds now : Nat) (t : ActivityTable) : Prop :=
  match findDomain d t with
  | none => True
  | some r =>
    (r.started = none ∨ ∃ s, r.started = some s ∧ s + staleSeconds < now) ∧
    (r.finished = none ∨ ∃ f, r.finished = some f ∧ f + minIntervalSeconds < now)

theorem findDomain_insertDomainIfAbsent (d : String) (t : ActivityTable) :
    findDomain d (insertDomainIfAbsent d t) =
      some ((findDomain d t).getD ⟨d, none, none⟩) := by
  unfold insertDomainIfAbsent
  cases h : findDomain d t with
  | some r => simp [h]
  | none =>
    simp only [Option.getD_none]
    unfold findDomain at h ⊢
    rw [List.find?_append, h]
    simp

theorem beginRateLimitAttempt_grant_iff (d : String) (i now : Nat) (t : ActivityTable) :
    (beginRateLimitAttempt d i now t).2 = true ↔ specAcquireEligible d i now t := by
  simp only [beginRateLimitAttempt, specAcquireEligible]
  rw [findDomain_insertDomainIfAbsent]
  cases h : findDomain d t with
  | none =>
    simp [domainEligible]
  | some r =>
    simp only [Option.getD_some]
    by_cases hde : domainEligible now i r = true
    · simp only [if_pos hde]
      unfold domainEligible at hde
      constructor
      · intro _
        rw [Bool.and_eq_true] at hde
        constructor
        · rcases hde.1 with h1
          cases hs : r.started with
          | none => exact Or.inl rfl
          | some s =>
            right
            refine ⟨s, rfl, ?_⟩
            rw [hs] at h1
            simpa using h1
        · rcases hde.2 with h2
          cases hf : r.finished with
          | none => exact Or.inl rfl
          | some f =>
            right
            refine ⟨f, rfl, ?_⟩
            rw [hf] at h2
            simpa using h2
      · intro _; trivial
    · simp only [if_neg hde]
      rw [Bool.not_eq_true] at hde
      unfold domainEligible at hde
      constructor
      · intro hc; exact absurd hc (by simp)
      · intro hspec
        exfalso
        rcases hspec with ⟨h1, h2⟩
        have e1 : (match r.started with
            | none => true
            | some s => decide (s + staleSeconds < now)) = true := by
          rcases h1 with h1 | ⟨s, hs, hlt⟩
          · rw [h1]
          · rw [hs]; simpa using hlt
        have e2 : (match r.finished with
            | none => true
            | some f => decide (f + i < now)) = true := by
          rcases h2 with h2 | ⟨f, hf, hlt⟩
          · rw [h2]
          · rw [hf]; simpa using hlt
        rw [e1, e2] at hde
        simp at hde

/-- Claim C3: begin_rate_limit_domain grants the lock exactly when the spec
eligibility predicate holds: the record is absent, or started is null, or
started is older than one hour, and in either case finished is null or older
than the cooldown interval. In particular a stale, never released domain
(started over an hour old, finished null) is granted, and a domain whose
finished is within the cooldown interval is never granted. -/
theorem begin_rate_limit_eligibility (d : String) (i now : Nat) (t : ActivityTable) :
    ((beginRateLimitAttempt d i now t).2 = true ↔ specAcquireEligible d i now t)
    ∧ (∀ r s, findDomain d t = some r → r.started = some s → s + staleSeconds < now →
        r.finished = none → (beginRateLimitAttempt d i now t).2 = true)
    ∧ (∀ r f, findDomain d t = some r → r.finished = some f → now ≤ f + i →
        (beginRateLimitAttempt d i now t).2 = false) := by
  have hmain := beginRateLimitAttempt_grant_iff d i now t
  refine ⟨hmain, ?_, ?_⟩
  · intro r s hr hs hlt hfin
    rw [hmain]
    unfold specAcquireEligible
    rw [hr]
    exact ⟨Or.inr ⟨s, hs, hlt⟩, Or.inl hfin⟩
  · intro r f hr hf hle
    cases hb : (beginRateLimitAttempt d i now t).2 with
    | false => rfl
    | true =>
      exfalso
      rw [hmain] at hb
      unfold specAcquireEligible at hb
      rw [hr] at hb
      rcases hb.2 with h2 | ⟨f2, hf2, hlt⟩
      · rw [hf] at h2; cases h2
      · rw [hf] at hf2
        cases hf2
        omega

theorem begin_rate_limit_eligibility_witness :
    (beginRateLimitAttempt "a.org" 10 4000 [⟨"a.org", some 0, none⟩]).2 = true :=
  (begin_rate_limit_eligibility "a.org" 10 4000 [⟨"a.org", some 0, none⟩]).2.1
    ⟨"a.org", some 0, none⟩ 0 (by decide) rfl (by decide) rfl

theorem begin_loop_sound (d : String) (i : Nat) (g : Nat) (t2 : ActivityTable) :
    ∀ (fuel now : Nat) (t : ActivityTable),
      begin_rate_limit_domain fuel d i now t = some (g, t2) →
      ∃ tb, beginRateLimitAttempt d i g tb = (t2, true) := by
  intro fuel
  induction fuel with
  | zero => intro now t h; cases h
  | succ fuel1 ih =>
    intro now t h
    unfold begin_rate_limit_domain at h
    cases ha : beginRateLimitAttempt d i now t with
    | mk t1 granted =>
      rw [ha] at h
      cases granted with
      | true =>
        simp only at h
        cases h
        exact ⟨t, ha⟩
      | false =>
        simp only at h
        exact ih (now + i / 2) t1 h

/-- Claim C6: begin_rate_limit_domain only returns by way of a granting
attempt of the atomic conditional update (it never returns ungranted); when
an attempt grants no row the caller sleeps interval_seconds/2 and retries
with the next attempt at that later time; and an attempt on a domain whose
row is active and not stale (started within the one hour threshold) never
grants, whatever its finished value. -/
theorem begin_rate_limit_domain_blocks_until_granted (fuel : Nat) (d : String)
    (i now g : Nat) (t t2 : ActivityTable) :
    (begin_rate_limit_domain fuel d i now t = some (g, t2) →
      ∃ tb, beginRateLimitAttempt d i g tb = (t2, true))
    ∧ ((beginRateLimitAttempt d i now t).2 = false →
        begin_rate_limit_domain (fuel + 1) d i now t =
          begin_rate_limit_domain fuel d i (now + i / 2) (beginRateLimitAttempt d i now t).1)
    ∧ (∀ r s, findDomain d t = some r → r.started = some s → now ≤ s + staleSeconds →
        (beginRateLimitAttempt d i now t).2 = false) := by
  refine ⟨fun h => begin_loop_sound d i g t2 fuel now t h, ?_, ?_⟩
  · intro hfail
    have hstep : begin_rate_limit_domain (fuel + 1) d i now t =
        match beginRateLimitAttempt d i now t with
        | (t1, true) => some (now, t1)
        | (t1, false) => begin_rate_limit_domain fuel d i (now + i / 2) t1 := rfl
    rw [hstep]
    cases ha : beginRateLimitAttempt d i now t with
    | mk t1 granted =>
      rw [ha] at hfail
      simp only at hfail
      cases hfail
      rfl
  · intro r s hr hs hle
    cases hb : (beginRateLimitAttempt d i now t).2 with
    | false => rfl
    | true =>
      exfalso
      rw [beginRateLimitAttempt_grant_iff d i now t] at hb
      unfold specAcquireEligible at hb
      rw [hr] at hb
      rcases hb.1 with h1 | ⟨s2, hs2, hlt⟩
      · rw [hs] at h1; cases h1
      · rw [hs] at hs2
        cases hs2
        omega

theorem begin_rate_limit_domain_blocks_witness :
    ∃ tb, beginRateLimitAttempt "a.org" 10 0 tb = ([⟨"a.org", some 0, none⟩], true) :=
  (begin_rate_limit_domain_blocks_until_granted 1 "a.org" 10 0 0 []
    [⟨"a.org", some 0, none⟩]).1 (by decide)

/-- A row of page_new: a scrape job with its id, the pmh_id classification tag
and a payload standing for the scrape-result columns that page.scrape()
overwrites. -/
structure Page where
  id : Nat
  pmh_id : Option String
  scrapeData : Nat
deriving Repr, DecidableEq

/-- The function scrape_page as written: begin_rate_limit_domain on the
domain of the page url, then page.scrape(), then end_rate_limit_domain.
There is no try/finally in the source, so when page.scrape() raises the
exception propagates and end_rate_limit_domain never runs. The scrape call
is external; its outcome is the parameter scrapeOutcome (none models the
call raising, some p a successful mutation), and scrapeSeconds is how long
it takes. Returns none when the acquire fuel runs out, otherwise the
result of the job together with the activity table it leaves behind. -/
def scrape_page (fuel : Nat) (scrapeOutcome : Option Page) (d : String)
    (intervalSeconds now scrapeSeconds : Nat) (t : ActivityTable) :
    Option (Except String Page × ActivityTable) :=
  match begin_rate_limit_domain fuel d intervalSeconds now t with
  | none => none
  | some (g, t1) =>
    match scrapeOutcome with
    | none => some (Except.error "page.scrape raised", t1)
    | some p => some (Except.ok p, end_rate_limit_domain d (g + scrapeSeconds) t1)

/-- Claim C1 is false of the code (code bug): scrape_page has no unconditional
cleanup, so when page.scrape() raises, end_rate_limit_domain is skipped. On a
fresh table, the lock on x.org is granted at time 100 and the scrape fails;
the table keeps started = 100 with no finished value, a reacquire attempt at
time 120, after the 10 second cooldown would have elapsed, is refused, and
the domain only becomes acquirable once the one hour staleness threshold
passes (granted at time 3701). The spec instead requires the release to run
on the error path so that the reacquire at 120 succeeds. -/
theorem scrape_page_failure_skips_release :
    scrape_page 1 none "x.org" 10 100 0 [] =
      some (Except.error "page.scrape raised", [⟨"x.org", some 100, none⟩])
    ∧ (beginRateLimitAttempt "x.org" 10 120 [⟨"x.org", some 100, none⟩]).2 = false
    ∧ (beginRateLimitAttempt "x.org" 10 3700 [⟨"x.org", some 100, none⟩]).2 = false
    ∧ (beginRateLimitAttempt "x.org" 10 3701 [⟨"x.org", some 100, none⟩]).2 = true
    ∧ end_rate_limit_domain "x.org" 110 [⟨"x.org", some 100, none⟩] =
        [⟨"x.org", none, some 110⟩]
    ∧ (beginRateLimitAttempt "x.org" 10 121 [⟨"x.org", none, some 110⟩]).2 = true := by
  refine ⟨rfl, by decide, by decide, by decide, by decide, by decide⟩

/-- A row of the page_green_scrape_queue table: the job id, the started and
finished claim timestamps and the random ordering key rand. -/
structure QueueRow where
  id : Nat
  started : Option Nat
  finished : Option Nat
  rand : Nat
deriving Repr, DecidableEq

/-- The database state the queue code touches: the page_green_scrape_queue
table and the page_new table, joined on id. -/
structure DbState where
  queue : List QueueRow
  pages : List Page
deriving Repr, DecidableEq

/-- Modelled from the spec: oa_publisher_equivalent is the publisher
equivalence comparison value imported from the oa_page module, which is not
part of this repository slice; it is supplied by configuration and only ever
compared for equality, so its exact text is irrelevant here. -/
def oa_publisher_equivalent : String := "publisher-equivalent"

/-- The pmh_value_filter of fetch_queue_chunk: with scrape_publisher the
clause is pmh_id = oa_publisher_equivalent (SQL equality, false on null);
without it, pmh_id is distinct from oa_publisher_equivalent, which is true
exactly when pmh_id differs from the value, a null pmh_id included. -/
def pmhFilter (scrape_publisher : Bool) (p : Page) : Bool :=
  if scrape_publisher then p.pmh_id == some oa_publisher_equivalent
  else p.pmh_id != some oa_publisher_equivalent

/-- Sort key for a column ordered ascending with nulls first. -/
def nullsFirstKey : Option Nat → Nat × Nat
  | none => (0, 0)
  | some n => (1, n)

/-- Sort key for a column ordered ascending with the default nulls last. -/
def nullsLastKey : Option Nat → Nat × Nat
  | none => (1, 0)
  | some n => (0, n)

/-- Lexicographic comparison of two pairs of naturals. -/
def pairCmp (a b : Nat × Nat) : Ordering :=
  (compare a.1 b.1).then (compare a.2 b.2)

/-- The order by clause of the claim query: finished asc nulls first, then
started (asc, nulls last by default), then rand. -/
def queueCmp (a b : QueueRow) : Ordering :=
  (pairCmp (nullsFirstKey a.finished) (nullsFirstKey b.finished)).then
    ((pairCmp (nullsLastKey a.started) (nullsLastKey b.started)).then
      (compare a.rand b.rand))

/-- Boolean form of the claim-query ordering. -/
def queueLE (a b : QueueRow) : Bool := queueCmp a b != Ordering.gt

/-- The claim-query ordering as a relation, for sorting. -/
def queueRel (a b : QueueRow) : Prop := queueLE a b = true

instance : DecidableRel queueRel := fun a b =>
  inferInstanceAs (Decidable (queueLE a b = true))

/-- The where clause of the update_chunk CTE: queue rows with started null
that join a page_new row satisfying the pmh filter. -/
def eligibleRows (sp : Bool) (st : DbState) : List QueueRow :=
  st.queue.filter (fun q =>
    q.started.isNone && st.pages.any (fun p => p.id == q.id && pmhFilter sp p))

/-- The ids selected by the update_chunk CTE: the eligible rows in the order
by (finished asc nulls first, started, rand), limited to chunk_size. -/
def selectedIds (chunkSize : Nat) (sp : Bool) (st : DbState) : List Nat :=
  ((List.insertionSort queueRel (eligibleRows sp st)).take chunkSize).map QueueRow.id

/-- The method fetch_queue_chunk: the CTE selects up to chunk_size eligible
ids in sort order with for update skip locked, the update sets started =
now() on exactly those queue rows and returns the ids, and a second query
hydrates the page_new objects for the ids. That second query has no order by
clause, so the objects come back in table order, not in the sort order of
the CTE. -/
def fetch_queue_chunk (chunkSize : Nat) (sp : Bool) (now : Nat) (st : DbState) :
    List Page × DbState :=
  let object_ids := selectedIds chunkSize sp st
  let queue1 := st.queue.map (fun q =>
    if object_ids.contains q.id then { q with started := some now } else q)
  let objects := st.pages.filter (fun p => object_ids.contains p.id)
  (objects, ⟨queue1, st.pages⟩)

/-- The finish_batch statement of worker_run: update page_green_scrape_queue
set finished = now(), started = null where id = any(:ids), one statement
covering the whole batch. -/
def finish_batch (ids : List Nat) (now : Nat) (queue : List QueueRow) : List QueueRow :=
  queue.map (fun q =>
    if ids.contains q.id then { q with started := none, finished := some now } else q)

/-- Primary-key lookup in the queue table. -/
def findQueueRow (i : Nat) (queue : List QueueRow) : Option QueueRow :=
  queue.find? (fun q => q.id == i)

/-- The ordering property the claim asserts of the returned objects: each
consecutive pair of returned pages has queue rows in the claim-query order
(finished asc nulls first, then started, then rand). -/
def pagesSortedByQueueKey (queue : List QueueRow) : List Page → Bool
  | [] => true
  | [_] => true
  | p1 :: p2 :: rest =>
    (match findQueueRow p1.id queue, findQueueRow p2.id queue with
     | some q1, some q2 => queueLE q1 q2
     | _, _ => true) && pagesSortedByQueueKey queue (p2 :: rest)

/-- Claim C5: finish_batch is one statement that sets finished = now and
started = null on exactly the rows whose id is among the given identifiers,
leaving every other row unchanged, and it is idempotent: running it twice on
the same identifiers, at times t1 then t2, leaves the same table as running
it once at t2, the finished timestamp advance apart. -/
theorem finish_batch_exact_and_idempotent (ids : List Nat) (t1 t2 : Nat)
    (queue : List QueueRow) :
    ((finish_batch ids t1 queue).length = queue.length)
    ∧ (∀ i : Nat, (finish_batch ids t1 queue)[i]? = (queue[i]?).map (fun q =>
        if q.id ∈ ids then { q with started := none, finished := some t1 } else q))
    ∧ finish_batch ids t2 (finish_batch ids t1 queue) = finish_batch ids t2 queue := by
  refine ⟨by simp [finish_batch], ?_, ?_⟩
  · intro i
    unfold finish_batch
    rw [List.getElem?_map]
    cases queue[i]? with
    | none => rfl
    | some q =>
      by_cases h : q.id ∈ ids
      · simp [h]
      · simp [h]
  · unfold finish_batch
    rw [List.map_map]
    apply List.map_congr_left
    intro q _
    simp only [Function.comp_apply]
    by_cases h : q.id ∈ ids
    · simp [h]
    · simp [h]

theorem mem_eligibleRows (sp : Bool) (st : DbState) (q : QueueRow) :
    q ∈ eligibleRows sp st ↔
      q ∈ st.queue ∧ q.started = none ∧
        ∃ p ∈ st.pages, p.id = q.id ∧ pmhFilter sp p = true := by
  unfold eligibleRows
  rw [List.mem_filter]
  constructor
  · rintro ⟨hq, hcond⟩
    rw [Bool.and_eq_true] at hcond
    obtain ⟨h1, h2⟩ := hcond
    refine ⟨hq, Option.isNone_iff_eq_none.mp h1, ?_⟩
    rw [List.any_eq_true] at h2
    obtain ⟨p, hp, hpp⟩ := h2
    rw [Bool.and_eq_true] at hpp
    exact ⟨p, hp, by simpa using hpp.1, hpp.2⟩
  · rintro ⟨hq, hst, p, hp, hid, hfil⟩
    refine ⟨hq, ?_⟩
    rw [Bool.and_eq_true]
    refine ⟨by simp [hst], ?_⟩
    rw [List.any_eq_true]
    exact ⟨p, hp, by simp [hid, hfil]⟩

theorem selectedIds_mem_eligible (chunkSize : Nat) (sp : Bool) (st : DbState) (i : Nat)
    (h : i ∈ selectedIds chunkSize sp st) :
    ∃ q ∈ eligibleRows sp st, q.id = i := by
  unfold selectedIds at h
  rw [List.mem_map] at h
  obtain ⟨q, hq, hid⟩ := h
  have hq2 : q ∈ List.insertionSort queueRel (eligibleRows sp st) :=
    (List.take_sublist _ _).subset hq
  exact ⟨q, (List.perm_insertionSort queueRel (eligibleRows sp st)).subset hq2, hid⟩

theorem selectedIds_length_le (chunkSize : Nat) (sp : Bool) (st : DbState) :
    (selectedIds chunkSize sp st).length ≤ chunkSize := by
  unfold selectedIds
  rw [List.length_map]
  exact le_trans (List.length_take_le _ _) (le_refl _)

theorem selectedIds_nodup (chunkSize : Nat) (sp : Bool) (st : DbState)
    (hq : (st.queue.map QueueRow.id).Nodup) :
    (selectedIds chunkSize sp st).Nodup := by
  have h1 : ((eligibleRows sp st).map QueueRow.id).Nodup :=
    hq.sublist ((List.filter_sublist _).map QueueRow.id)
  have h2 : ((List.insertionSort queueRel (eligibleRows sp st)).map QueueRow.id).Nodup :=
    (((List.perm_insertionSort queueRel (eligibleRows sp st))).map QueueRow.id).nodup_iff.mpr h1
  exact h2.sublist ((List.take_sublist chunkSize _).map QueueRow.id)

theorem page_id_inj (st : DbState) (hp : (st.pages.map Page.id).Nodup)
    (p1 : Page) (h1 : p1 ∈ st.pages) (p2 : Page) (h2 : p2 ∈ st.pages)
    (hid : p1.id = p2.id) : p1 = p2 :=
  List.inj_on_of_nodup_map hp h1 h2 hid

theorem mem_fetch_objects (chunkSize : Nat) (sp : Bool) (now : Nat) (st : DbState) (p : Page) :
    p ∈ (fetch_queue_chunk chunkSize sp now st).1 ↔
      p ∈ st.pages ∧ p.id ∈ selectedIds chunkSize sp st := by
  unfold fetch_queue_chunk
  simp [List.mem_filter]

theorem fetch_objects_filter_and_unclaimed (chunkSize : Nat) (sp : Bool) (now : Nat)
    (st : DbState) (hp : (st.pages.map Page.id).Nodup) (p : Page)
    (hmem : p ∈ (fetch_queue_chunk chunkSize sp now st).1) :
    pmhFilter sp p = true ∧ ∃ q ∈ st.queue, q.id = p.id ∧ q.started = none := by
  rw [mem_fetch_objects] at hmem
  obtain ⟨hpp, hid⟩ := hmem
  obtain ⟨q, hq, hqid⟩ := selectedIds_mem_eligible chunkSize sp st p.id hid
  rw [mem_eligibleRows] at hq
  obtain ⟨hqq, hst, p2, hp2, hp2id, hfil⟩ := hq
  have heq : p2 = p := page_id_inj st hp p2 hp2 p hpp (by rw [hp2id, hqid])
  subst heq
  exact ⟨hfil, q, hqq, hqid.symm ▸ hp2id.symm, hst⟩

/-- Claim C8: the publisher-equivalence filter splits jobs into two disjoint
pools. For every page, the scrape_publisher clause holds exactly when pmh_id
equals oa_publisher_equivalent, the normal clause (is distinct from) holds
exactly when it differs, a null tag included, never both and always one; and
every page a fetch_queue_chunk call returns satisfies the clause of the flag
it was called with. -/
theorem pmh_filter_disjoint_pools :
    (∀ p : Page, (pmhFilter true p && pmhFilter false p) = false)
    ∧ (∀ p : Page, (pmhFilter true p || pmhFilter false p) = true)
    ∧ (∀ p : Page, pmhFilter true p = true ↔ p.pmh_id = some oa_publisher_equivalent)
    ∧ (∀ p : Page, pmhFilter false p = true ↔ p.pmh_id ≠ some oa_publisher_equivalent)
    ∧ (∀ (chunkSize now : Nat) (st : DbState) (b : Bool), (st.pages.map Page.id).Nodup →
        ∀ p ∈ (fetch_queue_chunk chunkSize b now st).1, pmhFilter b p = true) := by
  refine ⟨?_, ?_, ?_, ?_, ?_⟩
  · intro p
    cases h : p.pmh_id == some oa_publisher_equivalent <;>
      simp [pmhFilter, bne, h]
  · intro p
    cases h : p.pmh_id == some oa_publisher_equivalent <;>
      simp [pmhFilter, bne, h]
  · intro p
    simp [pmhFilter]
  · intro p
    simp [pmhFilter, bne]
  · intro chunkSize now st b hp p hmem
    exact (fetch_objects_filter_and_unclaimed chunkSize b now st hp p hmem).1

theorem pmh_filter_disjoint_pools_witness :
    pmhFilter false ⟨1, none, 0⟩ = true :=
  pmh_filter_disjoint_pools.2.2.2.2 1 5 ⟨[⟨1, none, none, 0⟩], [⟨1, none, 0⟩]⟩ false
    (by decide) ⟨1, none, 0⟩ (by decide)

/-- Counterexample to claim C2 as stated: the hydration query of
fetch_queue_chunk has no order by clause, so the returned objects are not
sorted by (finished asc nulls first, started, rand). Two eligible jobs whose
rand keys order them 1 before 2 come back as [2, 1] because that is the
page_new table order. -/
theorem fetch_queue_chunk_unordered_counterexample :
    ((fetch_queue_chunk 2 false 50
        ⟨[⟨1, none, none, 0⟩, ⟨2, none, none, 1⟩],
         [⟨2, none, 0⟩, ⟨1, none, 0⟩]⟩).1.map Page.id = [2, 1])
    ∧ pagesSortedByQueueKey [⟨1, none, none, 0⟩, ⟨2, none, none, 1⟩]
        (fetch_queue_chunk 2 false 50
          ⟨[⟨1, none, none, 0⟩, ⟨2, none, none, 1⟩],
           [⟨2, none, 0⟩, ⟨1, none, 0⟩]⟩).1 = false
    ∧ selectedIds 2 false
        ⟨[⟨1, none, none, 0⟩, ⟨2, none, none, 1⟩],
         [⟨2, none, 0⟩, ⟨1, none, 0⟩]⟩ = [1, 2] := by
  refine ⟨by decide, by decide, by decide⟩

/-- Claim C2, amended: fetch_queue_chunk selects at most chunkSize jobs with
null started that join a page passing the pmh filter, choosing them by the
(finished asc nulls first, started, rand) ordering, sets started = now on
exactly the selected queue rows before returning, and returns the selected
jobs fully hydrated; when fewer than chunkSize jobs are eligible it returns
exactly the eligible ones, possibly none. The returned list however carries
the selected jobs in table order, not necessarily sorted by the ordering key
(the hydration query has no order by clause), which is the one part of the
original claim that fails. Stated under primary-key uniqueness of the two
tables. -/
theorem fetch_queue_chunk_spec (chunkSize : Nat) (sp : Bool) (now : Nat) (st : DbState)
    (hq : (st.queue.map QueueRow.id).Nodup) (hp : (st.pages.map Page.id).Nodup) :
    (∀ p ∈ (fetch_queue_chunk chunkSize sp now st).1,
        pmhFilter sp p = true ∧ ∃ q ∈ st.queue, q.id = p.id ∧ q.started = none)
    ∧ ((fetch_queue_chunk chunkSize sp now st).1.map Page.id).Perm
        (selectedIds chunkSize sp st)
    ∧ (fetch_queue_chunk chunkSize sp now st).1.length ≤ chunkSize
    ∧ (fetch_queue_chunk chunkSize sp now st).2.queue =
        st.queue.map (fun q => if q.id ∈ selectedIds chunkSize sp st
          then { q with started := some now } else q)
    ∧ (fetch_queue_chunk chunkSize sp now st).2.pages = st.pages
    ∧ ((eligibleRows sp st).length ≤ chunkSize →
        (selectedIds chunkSize sp st).Perm ((eligibleRows sp st).map QueueRow.id)) := by
  have hperm : ((fetch_queue_chunk chunkSize sp now st).1.map Page.id).Perm
      (selectedIds chunkSize sp st) := by
    have nodup1 : ((fetch_queue_chunk chunkSize sp now st).1.map Page.id).Nodup := by
      have hsub : List.Sublist (fetch_queue_chunk chunkSize sp now st).1 st.pages := by
        unfold fetch_queue_chunk
        exact List.filter_sublist _
      exact hp.sublist (hsub.map Page.id)
    have nodup2 := selectedIds_nodup chunkSize sp st hq
    refine (List.perm_ext_iff_of_nodup nodup1 nodup2).mpr ?_
    intro a
    constructor
    · intro ha
      rw [List.mem_map] at ha
      obtain ⟨p, hpmem, hpid⟩ := ha
      rw [mem_fetch_objects] at hpmem
      exact hpid ▸ hpmem.2
    · intro ha
      obtain ⟨qrow, hqrow, hqid⟩ := selectedIds_mem_eligible chunkSize sp st a ha
      rw [mem_eligibleRows] at hqrow
      obtain ⟨_, _, p, hpmem, hpid, _⟩ := hqrow
      rw [List.mem_map]
      refine ⟨p, ?_, by rw [hpid, hqid]⟩
      rw [mem_fetch_objects]
      exact ⟨hpmem, by rw [hpid, hqid]; exact ha⟩
  refine ⟨?_, hperm, ?_, ?_, rfl, ?_⟩
  · intro p hmem
    exact fetch_objects_filter_and_unclaimed chunkSize sp now st hp p hmem
  · have := hperm.length_eq
    rw [List.length_map] at this
    rw [this]
    exact selectedIds_length_le chunkSize sp st
  · unfold fetch_queue_chunk
    apply List.map_congr_left
    intro q _
    by_cases h : q.id ∈ selectedIds chunkSize sp st
    · simp [h]
    · simp [h]
  · intro hlen
    unfold selectedIds
    have hlen2 : (List.insertionSort queueRel (eligibleRows sp st)).length ≤ chunkSize := by
      rw [(List.perm_insertionSort queueRel (eligibleRows sp st)).length_eq]
      exact hlen
    rw [List.take_of_length_le hlen2]
    exact (List.perm_insertionSort queueRel (eligibleRows sp st)).map QueueRow.id

theorem fetch_queue_chunk_spec_witness :
    ((fetch_queue_chunk 2 false 50
      ⟨[⟨1, none, none, 0⟩, ⟨2, none, none, 1⟩],
       [⟨2, none, 0⟩, ⟨1, none, 0⟩]⟩).1.map Page.id).Perm
      (selectedIds 2 false
        ⟨[⟨1, none, none, 0⟩, ⟨2, none, none, 1⟩],
         [⟨2, none, 0⟩, ⟨1, none, 0⟩]⟩) :=
  (fetch_queue_chunk_spec 2 false 50
    ⟨[⟨1, none, none, 0⟩, ⟨2, none, none, 1⟩],
     [⟨2, none, 0⟩, ⟨1, none, 0⟩]⟩ (by decide) (by decide)).2.1

/-- The dict view of a scraped ORM object: its page columns together with the
process-local _sa_instance_state entry that the bulk persistence strips. -/
structure RowDict where
  page : Page
  sa_instance_state : Bool
deriving Repr, DecidableEq

/-- Building x.__dict__ of a session-attached object: the instance state is
present. -/
def pageDict (p : Page) : RowDict := ⟨p, true⟩

/-- row_dict.pop of _sa_instance_state: only the persisted columns remain. -/
def popSaInstanceState (d : RowDict) : Page := d.page

/-- The call db.session.bulk_update_mappings(PageNew, row_dicts): one bulk
update by primary key covering all the given rows. -/
def bulk_update_mappings (rows : List Page) (pages : List Page) : List Page :=
  pages.map (fun p =>
    match rows.find? (fun r => r.id == p.id) with
    | some r => r
    | none => p)

/-- Observable events of one worker_run iteration, in execution order. -/
inductive Event where
  | scraped : Nat → Event
  | persistBulk : List Page → Event
  | complete : List Nat → Event
deriving Repr, DecidableEq

/-- The function scrape_pages: pool.map runs scrape over every page and is a
synchronous barrier, returning only when every page of the batch is done;
then the row dicts are built, popped of _sa_instance_state, and handed to
one bulk_update_mappings call. scrapeFn stands for the external page.scrape
mutation. Returns the scraped pages, the state after the bulk persistence,
and the trace of events in order. -/
def scrape_pages (scrapeFn : Page → Page) (pages : List Page) (st : DbState) :
    List Page × DbState × List Event :=
  let scraped_pages := pages.map scrapeFn
  let row_dicts := (scraped_pages.map pageDict).map popSaInstanceState
  (scraped_pages,
   ⟨st.queue, bulk_update_mappings row_dicts st.pages⟩,
   pages.map (fun p => Event.scraped p.id) ++ [Event.persistBulk row_dicts])

/-- One non-empty iteration of the continuous loop of worker_run after the
chunk is fetched: scrape_pages over the batch, then the finish_batch
statement on the ids of the batch. -/
def workerBatchStep (scrapeFn : Page → Page) (objects : List Page) (now : Nat)
    (st : DbState) : DbState × List Event :=
  let r := scrape_pages scrapeFn objects st
  let object_ids := objects.map Page.id
  (⟨finish_batch object_ids now r.2.1.queue, r.2.1.pages⟩,
   r.2.2 ++ [Event.complete object_ids])

theorem workerBatchStep_trace_eq (f : Page → Page) (objects : List Page) (now : Nat)
    (st : DbState) :
    (workerBatchStep f objects now st).2 =
      objects.map (fun p => Event.scraped p.id) ++
        [Event.persistBulk ((objects.map f).map (fun p => popSaInstanceState (pageDict p))),
         Event.complete (objects.map Page.id)] := by
  simp [workerBatchStep, scrape_pages, List.map_map]

/-- Claim C4: one worker_run batch iteration produces the trace in which every
job of the batch is scraped first (the pool.map barrier), then one bulk
persistence of the whole batch with _sa_instance_state stripped from each row
dict, then the finish_batch completion of the same ids: for every job of the
batch its scrape event sits at an index strictly before the single persist
event, which sits strictly before the complete event, the persisted rows
cover exactly the ids of the batch, and the state is updated by the bulk
update of the pages then the finish_batch on the queue. The scrape mutation
preserves the job id. -/
theorem scrape_pages_barrier_persist_before_complete (f : Page → Page)
    (objects : List Page) (now : Nat) (st : DbState)
    (hid : ∀ p, (f p).id = p.id) :
    ((workerBatchStep f objects now st).2 =
       objects.map (fun p => Event.scraped p.id) ++
         [Event.persistBulk ((objects.map f).map (fun p => popSaInstanceState (pageDict p))),
          Event.complete (objects.map Page.id)])
    ∧ (∀ p ∈ objects, ∃ i j k : Nat, i < j ∧ j < k ∧
        (workerBatchStep f objects now st).2[i]? = some (Event.scraped p.id) ∧
        (∃ rows, (workerBatchStep f objects now st).2[j]? = some (Event.persistBulk rows) ∧
           rows.map Page.id = objects.map Page.id) ∧
        (workerBatchStep f objects now st).2[k]? =
          some (Event.complete (objects.map Page.id)))
    ∧ (workerBatchStep f objects now st).1.pages =
        bulk_update_mappings ((objects.map f).map (fun p => popSaInstanceState (pageDict p)))
          st.pages
    ∧ (workerBatchStep f objects now st).1.queue =
        finish_batch (objects.map Page.id) now st.queue := by
  have htr := workerBatchStep_trace_eq f objects now st
  have hrows : ((objects.map f).map (fun p => popSaInstanceState (pageDict p))).map Page.id
      = objects.map Page.id := by
    rw [List.map_map, List.map_map]
    apply List.map_congr_left
    intro p _
    exact hid p
  refine ⟨htr, ?_, ?_, ?_⟩
  · intro p hmem
    rw [List.mem_iff_getElem?] at hmem
    obtain ⟨n, hn⟩ := hmem
    have hnlt : n < objects.length := by
      by_contra hge
      rw [List.getElem?_eq_none (by omega)] at hn
      cases hn
    refine ⟨n, objects.length, objects.length + 1, ?_, ?_, ?_, ?_, ?_⟩
    · exact hnlt
    · omega
    · rw [htr, List.getElem?_append]
      rw [if_pos (by rw [List.length_map]; exact hnlt)]
      rw [List.getElem?_map, hn]
      rfl
    · refine ⟨(objects.map f).map (fun p => popSaInstanceState (pageDict p)), ?_, hrows⟩
      rw [htr]
      rw [List.getElem?_append_right (by rw [List.length_map])]
      rw [List.length_map]
      simp
    · rw [htr]
      rw [List.getElem?_append_right (by rw [List.length_map]; omega)]
      rw [List.length_map]
      have : objects.length + 1 - objects.length = 1 := by omega
      rw [this]
      rfl
  · simp only [workerBatchStep, scrape_pages, List.map_map]
    rfl
  · simp [workerBatchStep, scrape_pages]

theorem scrape_pages_barrier_witness :
    ∃ i j k : Nat, i < j ∧ j < k ∧
      (workerBatchStep (fun p => p) [⟨1, none, 0⟩] 7 ⟨[⟨1, none, none, 0⟩], [⟨1, none, 0⟩]⟩).2[i]?
        = some (Event.scraped 1) ∧
      (∃ rows,
        (workerBatchStep (fun p => p) [⟨1, none, 0⟩] 7
          ⟨[⟨1, none, none, 0⟩], [⟨1, none, 0⟩]⟩).2[j]? = some (Event.persistBulk rows) ∧
        rows.map Page.id = [(⟨1, none, 0⟩ : Page)].map Page.id) ∧
      (workerBatchStep (fun p => p) [⟨1, none, 0⟩] 7
        ⟨[⟨1, none, none, 0⟩], [⟨1, none, 0⟩]⟩).2[k]? =
          some (Event.complete ([(⟨1, none, 0⟩ : Page)].map Page.id)) :=
  (scrape_pages_barrier_persist_before_complete (fun p => p) [⟨1, none, 0⟩] 7
    ⟨[⟨1, none, none, 0⟩], [⟨1, none, 0⟩]⟩ (fun _ => rfl)).2.1 ⟨1, none, 0⟩ (by decide)

/-- The loop condition num_updated < limit of worker_run; a missing --limit
flag becomes limit = float inf in the source, modelled as none, under which
the condition always holds. -/
def underLimit (limit : Option Nat) (numUpdated : Nat) : Bool :=
  match limit with
  | none => true
  | some l => decide (numUpdated < l)

/-- The continuous mode loop of worker_run: while num_updated < limit, fetch
a chunk; when it is empty, sleep 5 seconds and try again without dispatching
or completing anything; otherwise scrape the batch, bulk-persist it, run
finish_batch on its ids and add the batch size to num_updated. fuel bounds
the number of iterations so the definition is total; the source loop has no
such bound. Returns (num_updated, state) on normal loop exit, none when fuel
runs out first. -/
def worker_run_loop (scrapeFn : Page → Page) (chunkSize : Nat) (sp : Bool)
    (limit : Option Nat) (fuel now numUpdated : Nat) (st : DbState) :
    Option (Nat × DbState) :=
  match fuel with
  | 0 => none
  | Nat.succ fuel1 =>
    if underLimit limit numUpdated then
      let fetched := fetch_queue_chunk chunkSize sp now st
      if fetched.1.isEmpty then
        worker_run_loop scrapeFn chunkSize sp limit fuel1 (now + 5) numUpdated fetched.2
      else
        worker_run_loop scrapeFn chunkSize sp limit fuel1 (now + 1)
          (numUpdated + fetched.1.length) (workerBatchStep scrapeFn fetched.1 now fetched.2).1
    else some (numUpdated, st)

/-- The single-id lookup of worker_run: run_class.query.filter(id ==
single_id).first(), none when no row matches. -/
def queryFirstById (i : Nat) (pages : List Page) : Option Page :=
  pages.find? (fun p => p.id == i)

/-- The call make_transient(page) at the top of scrape_pages: attribute
access on a None page raises. -/
def makeTransient (x : Option Page) : Except String Page :=
  match x with
  | none => Except.error "AttributeError: NoneType has no attribute"
  | some p => Except.ok p

/-- scrape_pages as reached from single-id mode, where the objects list may
hold a None element because the lookup result is wrapped without an absence
check: the make_transient loop raises on a None element before any scraping
happens; otherwise the batch proceeds as usual. -/
def scrapePagesObjects (scrapeFn : Page → Page) (objects : List (Option Page))
    (st : DbState) : Except String (List Page × DbState × List Event) :=
  (objects.mapM makeTransient).map (fun pages => scrape_pages scrapeFn pages st)

/-- The single-id mode of worker_run: objects = [query...first()], handed
straight to scrape_pages. -/
def worker_run_single (scrapeFn : Page → Page) (single_id : Nat) (st : DbState) :
    Except String (List Page × DbState × List Event) :=
  scrapePagesObjects scrapeFn [queryFirstById single_id st.pages] st

theorem worker_run_loop_step (f : Page → Page) (chunkSize : Nat) (sp : Bool)
    (limit : Option Nat) (fuel now numUpdated : Nat) (st : DbState) :
    worker_run_loop f chunkSize sp limit (fuel + 1) now numUpdated st =
      if underLimit limit numUpdated then
        if (fetch_queue_chunk chunkSize sp now st).1.isEmpty then
          worker_run_loop f chunkSize sp limit fuel (now + 5) numUpdated
            (fetch_queue_chunk chunkSize sp now st).2
        else
          worker_run_loop f chunkSize sp limit fuel (now + 1)
            (numUpdated + (fetch_queue_chunk chunkSize sp now st).1.length)
            (workerBatchStep f (fetch_queue_chunk chunkSize sp now st).1 now
              (fetch_queue_chunk chunkSize sp now st).2).1
      else some (numUpdated, st) := rfl

theorem bulk_update_mappings_map_id (rows pages : List Page) :
    (bulk_update_mappings rows pages).map Page.id = pages.map Page.id := by
  unfold bulk_update_mappings
  rw [List.map_map]
  apply List.map_congr_left
  intro p _
  simp only [Function.comp_apply]
  cases hf : rows.find? (fun r => r.id == p.id) with
  | none => rfl
  | some r =>
    have := List.find?_some hf
    simpa using this

theorem workerBatchStep_pages_map_id (f : Page → Page) (objs : List Page) (now : Nat)
    (st : DbState) :
    (workerBatchStep f objs now st).1.pages.map Page.id = st.pages.map Page.id := by
  simp only [workerBatchStep, scrape_pages]
  exact bulk_update_mappings_map_id _ _

theorem fetch_objects_length_le (chunkSize : Nat) (sp : Bool) (now : Nat) (st : DbState)
    (hp : (st.pages.map Page.id).Nodup) :
    (fetch_queue_chunk chunkSize sp now st).1.length ≤ chunkSize := by
  have nodup1 : ((fetch_queue_chunk chunkSize sp now st).1.map Page.id).Nodup := by
    have hsub : List.Sublist (fetch_queue_chunk chunkSize sp now st).1 st.pages := by
      unfold fetch_queue_chunk
      exact List.filter_sublist _
    exact hp.sublist (hsub.map Page.id)
  have hsubset : ((fetch_queue_chunk chunkSize sp now st).1.map Page.id) ⊆
      selectedIds chunkSize sp st := by
    intro a ha
    rw [List.mem_map] at ha
    obtain ⟨p, hpmem, hpid⟩ := ha
    rw [mem_fetch_objects] at hpmem
    exact hpid ▸ hpmem.2
  have hlen := List.Subperm.length_le (List.Nodup.subperm nodup1 hsubset)
  rw [List.length_map] at hlen
  exact le_trans hlen (selectedIds_length_le chunkSize sp st)

theorem worker_run_loop_exit_ge (f : Page → Page) (chunkSize : Nat) (sp : Bool) (L : Nat) :
    ∀ (fuel now numUpdated : Nat) (st : DbState) (n : Nat) (st2 : DbState),
      worker_run_loop f chunkSize sp (some L) fuel now numUpdated st = some (n, st2) →
      L ≤ n := by
  intro fuel
  induction fuel with
  | zero => intro now nu st n st2 h; cases h
  | succ fuel1 ih =>
    intro now nu st n st2 h
    rw [worker_run_loop_step] at h
    by_cases hu : underLimit (some L) nu = true
    · rw [if_pos hu] at h
      by_cases he : (fetch_queue_chunk chunkSize sp now st).1.isEmpty = true
      · rw [if_pos he] at h
        exact ih _ _ _ _ _ h
      · rw [if_neg he] at h
        exact ih _ _ _ _ _ h
    · rw [if_neg hu] at h
      cases h
      simp only [underLimit, decide_eq_true_eq] at hu
      omega

theorem worker_run_loop_exit_le (f : Page → Page) (chunkSize : Nat) (sp : Bool) (L : Nat) :
    ∀ (fuel now numUpdated : Nat) (st : DbState) (n : Nat) (st2 : DbState),
      (st.pages.map Page.id).Nodup →
      worker_run_loop f chunkSize sp (some L) fuel now numUpdated st = some (n, st2) →
      n = numUpdated ∨ ∃ m, m < L ∧ n ≤ m + chunkSize := by
  intro fuel
  induction fuel with
  | zero => intro now nu st n st2 hp h; cases h
  | succ fuel1 ih =>
    intro now nu st n st2 hp h
    rw [worker_run_loop_step] at h
    by_cases hu : underLimit (some L) nu = true
    · rw [if_pos hu] at h
      by_cases he : (fetch_queue_chunk chunkSize sp now st).1.isEmpty = true
      · rw [if_pos he] at h
        exact ih (now + 5) nu ((fetch_queue_chunk chunkSize sp now st).2) n st2 hp h
      · rw [if_neg he] at h
        have hp2 : ((workerBatchStep f (fetch_queue_chunk chunkSize sp now st).1 now
            (fetch_queue_chunk chunkSize sp now st).2).1.pages.map Page.id).Nodup := by
          rw [workerBatchStep_pages_map_id]
          exact hp
        have hlen : (fetch_queue_chunk chunkSize sp now st).1.length ≤ chunkSize :=
          fetch_objects_length_le chunkSize sp now st hp
        have hnuL : nu < L := by simpa [underLimit] using hu
        rcases ih _ _ _ _ _ hp2 h with hrec | ⟨m, hm, hle⟩
        · right; exact ⟨nu, hnuL, by omega⟩
        · right; exact ⟨m, hm, hle⟩
    · rw [if_neg hu] at h
      cases h
      left; rfl

theorem worker_run_loop_none_limit (f : Page → Page) (chunkSize : Nat) (sp : Bool) :
    ∀ (fuel now numUpdated : Nat) (st : DbState),
      worker_run_loop f chunkSize sp none fuel now numUpdated st = none := by
  intro fuel
  induction fuel with
  | zero => intro now nu st; rfl
  | succ fuel1 ih =>
    intro now nu st
    rw [worker_run_loop_step]
    rw [if_pos (show underLimit none nu = true from rfl)]
    by_cases he : (fetch_queue_chunk chunkSize sp now st).1.isEmpty = true
    · rw [if_pos he]
      exact ih _ _ _
    · rw [if_neg he]
      exact ih _ _ _

/-- Claim C7: in continuous mode each iteration fetches a chunk while
num_updated is below the limit; an empty chunk makes the runner sleep 5
seconds and retry without dispatching or completing anything; a non-empty
chunk is dispatched through scrape_pages, bulk-persisted and finish_batched,
and its size is added to the running count; the loop exits only once the
count has reached a configured finite limit, and with no limit configured it
never exits. -/
theorem worker_run_continuous_loop_spec (f : Page → Page) (chunkSize : Nat) (sp : Bool)
    (limit : Option Nat) (fuel now numUpdated : Nat) (st : DbState) :
    (underLimit limit numUpdated = true →
      (fetch_queue_chunk chunkSize sp now st).1 = [] →
        worker_run_loop f chunkSize sp limit (fuel + 1) now numUpdated st =
          worker_run_loop f chunkSize sp limit fuel (now + 5) numUpdated
            (fetch_queue_chunk chunkSize sp now st).2)
    ∧ (underLimit limit numUpdated = true →
        (fetch_queue_chunk chunkSize sp now st).1 ≠ [] →
        worker_run_loop f chunkSize sp limit (fuel + 1) now numUpdated st =
          worker_run_loop f chunkSize sp limit fuel (now + 1)
            (numUpdated + (fetch_queue_chunk chunkSize sp now st).1.length)
            (workerBatchStep f (fetch_queue_chunk chunkSize sp now st).1 now
              (fetch_queue_chunk chunkSize sp now st).2).1)
    ∧ (underLimit limit numUpdated = false →
        worker_run_loop f chunkSize sp limit (fuel + 1) now numUpdated st =
          some (numUpdated, st))
    ∧ (∀ L n st2, limit = some L →
        worker_run_loop f chunkSize sp limit fuel now numUpdated st = some (n, st2) →
        L ≤ n)
    ∧ (limit = none →
        worker_run_loop f chunkSize sp limit fuel now numUpdated st = none) := by
  refine ⟨?_, ?_, ?_, ?_, ?_⟩
  · intro hu he
    rw [worker_run_loop_step, if_pos hu, if_pos (show _ = true by rw [he]; rfl)]
  · intro hu he
    have hne : (fetch_queue_chunk chunkSize sp now st).1.isEmpty = false := by
      cases hcase : (fetch_queue_chunk chunkSize sp now st).1 with
      | nil => exact absurd hcase he
      | cons a l => rfl
    rw [worker_run_loop_step, if_pos hu, if_neg (by rw [hne]; exact Bool.false_ne_true)]
  · intro hu
    rw [worker_run_loop_step, if_neg (by rw [hu]; exact Bool.false_ne_true)]
  · intro L n st2 hL h
    subst hL
    exact worker_run_loop_exit_ge f chunkSize sp L fuel now numUpdated st n st2 h
  · intro hnone
    subst hnone
    exact worker_run_loop_none_limit f chunkSize sp fuel now numUpdated st

theorem worker_run_continuous_loop_witness :
    worker_run_loop (fun p => p) 1 false (some 0) 1 0 0 ⟨[], []⟩ = some (0, ⟨[], []⟩) :=
  (worker_run_continuous_loop_spec (fun p => p) 1 false (some 0) 0 0 0 ⟨[], []⟩).2.2.1
    (by decide)

/-- Claim C10: with a finite limit L and starting count 0, the limit is only
checked between batches and the fetched chunk is never clamped to the
remaining budget, so whenever the continuous loop exits normally with final
count n, L ≤ n ≤ L + chunkSize - 1: up to chunkSize - 1 jobs beyond the
configured limit are processed. Stated under primary-key uniqueness of the
pages table, which every loop iteration preserves. -/
theorem worker_run_limit_overshoot_bounds (f : Page → Page) (chunkSize : Nat) (sp : Bool)
    (L fuel now : Nat) (st : DbState) (n : Nat) (st2 : DbState)
    (hp : (st.pages.map Page.id).Nodup)
    (h : worker_run_loop f chunkSize sp (some L) fuel now 0 st = some (n, st2)) :
    L ≤ n ∧ n ≤ L + chunkSize - 1 := by
  have hge := worker_run_loop_exit_ge f chunkSize sp L fuel now 0 st n st2 h
  have hle := worker_run_loop_exit_le f chunkSize sp L fuel now 0 st n st2 hp h
  refine ⟨hge, ?_⟩
  rcases hle with h0 | ⟨m, hm, hb⟩
  · omega
  · omega

theorem worker_run_limit_overshoot_witness :
    1 ≤ 2 ∧ 2 ≤ 1 + 2 - 1 :=
  worker_run_limit_overshoot_bounds (fun p => p) 2 false 1 2 0
    ⟨[⟨1, none, none, 0⟩, ⟨2, none, none, 1⟩], [⟨1, none, 0⟩, ⟨2, none, 0⟩]⟩ 2
    ⟨[⟨1, none, some 0, 0⟩, ⟨2, none, some 0, 1⟩], [⟨1, none, 0⟩, ⟨2, none, 0⟩]⟩
    (by decide) (by decide)

/-- Claim C9 (implicit): single-id mode requires the identifier to name an
existing job. worker_run wraps the lookup result in a one-element list with
no absence check, so when no row matches, scrape_pages runs make_transient
on a None element and the run fails with an attribute error instead of
exiting cleanly or reporting not-found; when a row matches, the one-element
batch proceeds normally. -/
theorem worker_run_single_missing_id_fails (f : Page → Page) (i : Nat) (st : DbState) :
    (queryFirstById i st.pages = none →
      worker_run_single f i st =
        Except.error "AttributeError: NoneType has no attribute")
    ∧ (∀ p, queryFirstById i st.pages = some p →
        worker_run_single f i st = Except.ok (scrape_pages f [p] st)) := by
  constructor
  · intro h
    unfold worker_run_single scrapePagesObjects
    rw [h]
    rfl
  · intro p h
    unfold worker_run_single scrapePagesObjects
    rw [h]
    rfl

theorem worker_run_single_missing_id_witness :
    worker_run_single (fun p => p) 1 ⟨[], []⟩ =
      Except.error "AttributeError: NoneType has no attribute" :=
  (worker_run_single_missing_id_fails (fun p => p) 1 ⟨[], []⟩).1 rfl
